import Mathlib

/-!
Shallow embedding of the `lazybam` sources (`src/iterator.rs`, `src/record.rs`,
`src/lib.rs`) over the `noodles` BAM/SAM library boundary.

The external codec collaborator (`noodles`) is modelled as a record of already
decoded fields, exactly the shape the repository's code consumes:

  * `bam::Record::alignment_start() -> Option<io::Result<Position>>`,
    where `Position` is a 1-based nonzero integer and `Position::try_from(0)`
    fails (it wraps `NonZeroUsize`);
  * `bam::Record::reference_sequence_id() -> Option<io::Result<usize>>`;
  * `bam::Record::mapping_quality() -> Option<MappingQuality>`, `None` when the
    stored byte is the missing sentinel `255`; `MappingQuality::try_from(n: u8)`
    fails exactly when `n = 255`;
  * `bam::Record::cigar().iter()` yields `io::Result<Op>` per raw op;
  * `bam::Record::data().iter()` yields `io::Result<(Tag, Value)>` per field,
    and `record_buf::Data::try_from` fails if any single field fails, otherwise
    collecting the fields into an insertion-ordered map (replace-by-key);
  * `sam` `Flags` declares the 12 SAM flag bits `0x1 ..= 0x800`, so
    `Flags::from_bits_truncate` keeps exactly the low 12 bits, while
    `u16::from(record.flags())` returns the stored 16-bit value unchanged.

Rust `io::Result` values are modelled by `RResult` (the code only ever
distinguishes `Ok` from `Err`), fallible rebuild by `BuildOutcome`, where
`panic` records a `.unwrap()` on an `Err` value.  Strings are modelled as
`String`/`List Char` (byte-to-char conversion is injective on bytes, so no
information relevant to the claims is lost).
-/

/-- Result of a fallible library call; the sources only match on `Ok`/`Err`,
never on the error payload, so the error is a bare constructor. -/
inductive RResult (α : Type) where
  | ok (val : α)
  | err
deriving DecidableEq, Repr

/-- Rust `Result::ok()`: `Ok v ↦ some v`, `Err _ ↦ none`. -/
def RResult.toOption {α : Type} : RResult α → Option α
  | .ok v => some v
  | .err => none

/-- Sequence a list of results, failing on the first error (the shape of
`Data::try_from`, which uses `?` on every field). -/
def RResult.sequence {α : Type} : List (RResult α) → RResult (List α)
  | [] => .ok []
  | .err :: _ => .err
  | .ok v :: rest =>
    match RResult.sequence rest with
    | .ok vs => .ok (v :: vs)
    | .err => .err

/-- CIGAR operation kind, ordinal-stable: the 9 variants of
`sam::alignment::record::cigar::op::Kind`, mirrored one-for-one by `PyKind`
in both `iterator.rs` and `record.rs`. -/
inductive Kind where
  | Match
  | Insertion
  | Deletion
  | Skip
  | SoftClip
  | HardClip
  | Pad
  | SequenceMatch
  | SequenceMismatch
deriving DecidableEq, Repr

/-- The ordinal surfaced by `op.kind() as u32` / `PyKind as u32`
(`Match = 0`, ..., `SequenceMismatch = 8`). -/
def Kind.toNat : Kind → Nat
  | .Match => 0
  | .Insertion => 1
  | .Deletion => 2
  | .Skip => 3
  | .SoftClip => 4
  | .HardClip => 5
  | .Pad => 6
  | .SequenceMatch => 7
  | .SequenceMismatch => 8

/-- One CIGAR operation `Op`: kind and run length. -/
structure Op where
  kind : Kind
  len : Nat
deriving DecidableEq, Repr

/-- A two-byte tag name (`sam` `Tag` wraps `[u8; 2]`). -/
abbrev Tag := Nat × Nat

/-- Tag value (`sam::alignment::record::data::field::Value`), carried opaquely
by the rebuild path (the code only clones values; it never inspects them when
rebuilding).  The float payload is carried as its raw 32 bits. -/
inductive BamValue where
  | int8 (n : Int)
  | uint8 (n : Nat)
  | int16 (n : Int)
  | uint16 (n : Nat)
  | int32 (n : Int)
  | uint32 (n : Nat)
  | float (bits : Nat)
  | character (c : Nat)
  | str (bytes : List Nat)
  | arrayUInt8 (xs : List Nat)
  | arrayInt8 (xs : List Int)
  | arrayInt16 (xs : List Int)
  | arrayFloat (xs : List Nat)
  | other
deriving DecidableEq, Repr

/-- A decoded `bam::Record` as consumed by the repository code: each field is
exactly what the corresponding `noodles` accessor yields. -/
structure BamRecord where
  name : Option String
  flags : Nat
  referenceSequenceId : Option (RResult Nat)
  alignmentStart : Option (RResult Nat)
  mappingQuality : Option Nat
  templateLength : Int
  sequence : List Nat
  qualityScores : List Nat
  cigarOps : List (RResult Op)
  rawData : List (RResult (Tag × BamValue))
deriving DecidableEq, Repr

/-- Keys (tag names) of an insertion-ordered field list. -/
def keysOf (d : List (Tag × BamValue)) : List Tag := d.map Prod.fst

/-- First value stored under a tag name. -/
def lookupTag (d : List (Tag × BamValue)) (t : Tag) : Option BamValue :=
  (d.find? (fun p => decide (p.1 = t))).map Prod.snd

/-- Number of entries stored under a tag name. -/
def countKey (d : List (Tag × BamValue)) (t : Tag) : Nat :=
  (d.filter (fun p => decide (p.1 = t))).length

/-- Source `record_buf::Data::insert`: replace in place if the tag name exists
(keeping its position), else append (`IndexMap::insert` semantics). -/
def dataInsert (d : List (Tag × BamValue)) (t : Tag) (v : BamValue) :
    List (Tag × BamValue) :=
  if d.any (fun p => decide (p.1 = t)) then
    d.map (fun p => if p.1 = t then (t, v) else p)
  else
    d ++ [(t, v)]

/-- Insert a list of fields left to right (`Data` collection order). -/
def dataInsertAll (d : List (Tag × BamValue)) (fields : List (Tag × BamValue)) :
    List (Tag × BamValue) :=
  fields.foldl (fun acc tv => dataInsert acc tv.1 tv.2) d

/-- Source `Data::try_from(record.data())`: fails if any single field fails to
decode, otherwise collects the fields into the insertion-ordered map. -/
def dataTryFrom (raw : List (RResult (Tag × BamValue))) :
    RResult (List (Tag × BamValue)) :=
  match RResult.sequence raw with
  | .ok fields => .ok (dataInsertAll [] fields)
  | .err => .err

/-- Modelled from the spec: `RecordOverride` (its defining module
`src/record_override.rs` is not among the provided sources; only its use in
`src/record.rs` is).  Per the spec it is a sparse patch: optional replacement
tag entries (merged by name), an optional wholesale-replacement CIGAR op
sequence (whose raw ops are filtered through `Result::ok` on use, matching
`r_override.cigar.iter().filter_map(Result::ok)` in `record.rs`), and an
optional wholesale-replacement reference-sequence id. -/
structure RecordOverride where
  tags : List (Tag × BamValue)
  cigar : Option (List (RResult Op))
  referenceSequenceId : Option Nat
deriving DecidableEq, Repr

/-- The defined SAM flag bits (`0x1 ..= 0x800`): mask used by
`Flags::from_bits_truncate`, which unsets all unknown bits. -/
def flagsKnownMask : Nat := 0xFFF

/-- Source `Flags::from_bits_truncate(n)` over the 12 defined SAM flags. -/
def flagsFromBitsTruncate (n : Nat) : Nat := n &&& flagsKnownMask

/-- The assembled `RecordBuf` produced by `PyBamRecord::to_record_buf`. -/
structure RecordBuf where
  name : String
  flags : Nat
  cigar : List Op
  sequence : List Char
  qualityScores : List Nat
  data : List (Tag × BamValue)
  referenceSequenceId : Nat
  alignmentStart : Nat
  mappingQuality : Nat
deriving DecidableEq, Repr

/-- Outcome of `to_record_buf`: `ok` (the `anyhow::Result` `Ok` arm), `err`
with the `anyhow!` message, or `panic` when the code calls `.unwrap()` on an
`Err` value. -/
inductive BuildOutcome where
  | ok (r : RecordBuf)
  | err (msg : String)
  | panic (msg : String)
deriving DecidableEq, Repr

namespace Record

/-- Source `record.rs`: `PyBamRecord { record, record_override }`. -/
structure PyBamRecord where
  record : BamRecord
  recordOverride : Option RecordOverride
deriving DecidableEq, Repr

/-- Source `record.rs` `from_record`: wrap with no override attached. -/
def PyBamRecord.from_record (record : BamRecord) : PyBamRecord :=
  { record := record, recordOverride := none }

/-- Source `record.rs` `qname`: record name, or empty when unavailable. -/
def PyBamRecord.qname (self : PyBamRecord) : String :=
  (self.record.name.map id).getD ""

/-- Source `record.rs` `flag`: `u16::from(self.record.flags())`. -/
def PyBamRecord.flag (self : PyBamRecord) : Nat :=
  self.record.flags

/-- Source `record.rs` `pos`: `alignment_start().and_then(|r| r.ok())
.map(|p| p as i64).unwrap_or(-1)`. -/
def PyBamRecord.pos (self : PyBamRecord) : Int :=
  match self.record.alignmentStart with
  | some (.ok p) => (p : Int)
  | some .err => -1
  | none => -1

/-- Source `record.rs` `mapq`: mapping quality byte, or `255` when unavailable. -/
def PyBamRecord.mapq (self : PyBamRecord) : Nat :=
  self.record.mappingQuality.getD 255

/-- Source `record.rs` `len`: absolute value of the signed template length. -/
def PyBamRecord.len (self : PyBamRecord) : Nat :=
  self.record.templateLength.natAbs

/-- Source `record.rs` `seq`: one char per base byte. -/
def PyBamRecord.seq (self : PyBamRecord) : List Char :=
  self.record.sequence.map Char.ofNat

/-- Source `record.rs` `qual`: quality score bytes widened to usize. -/
def PyBamRecord.qual (self : PyBamRecord) : List Nat :=
  self.record.qualityScores

/-- Source `record.rs` `cigar`: `cigar().iter().filter_map(Result::ok)` then
`(op.kind() as u32, op.len() as u32)` — failing ops are dropped. -/
def PyBamRecord.cigar (self : PyBamRecord) : List (Nat × Nat) :=
  (self.record.cigarOps.filterMap RResult.toOption).map
    (fun op => (op.kind.toNat, op.len))

/-- Source `record.rs` `to_record_buf`, statement for statement:
sequence/quality/data are copied first (`Data::try_from(...).unwrap_or_default()`),
then the position match (whose `None` arm calls `Position::try_from(0).unwrap()`,
which always panics because `Position` is nonzero), then the base CIGAR and the
reference-id match, then the override (tag merge, CIGAR wholesale, reference id
wholesale), and finally the builder whose `set_mapping_quality` argument is
`MappingQuality::try_from(self.mapq()).unwrap()`, a panic exactly when
`self.mapq() = 255`. -/
def PyBamRecord.to_record_buf (self : PyBamRecord) : BuildOutcome :=
  let seq := self.seq
  let qual := self.record.qualityScores
  let data := (dataTryFrom self.record.rawData).toOption.getD []
  match self.record.alignmentStart with
  | some .err => .err "Invalid alignment start position"
  | none => .panic "Position::try_from(0).unwrap() on Err"
  | some (.ok position) =>
    let cigarVec := self.record.cigarOps.filterMap RResult.toOption
    match self.record.referenceSequenceId with
    | some .err => .err "Invalid reference sequence ID"
    | refIdField =>
      let refId : Nat :=
        match refIdField with
        | some (.ok rid) => rid
        | _ => 0
      let data :=
        match self.recordOverride with
        | some o => dataInsertAll data o.tags
        | none => data
      let cigarVec :=
        match self.recordOverride with
        | some o =>
          match o.cigar with
          | some c => c.filterMap RResult.toOption
          | none => cigarVec
        | none => cigarVec
      let refId :=
        match self.recordOverride with
        | some o =>
          match o.referenceSequenceId with
          | some rid => rid
          | none => refId
        | none => refId
      if self.mapq = 255 then
        .panic "MappingQuality::try_from(mapq).unwrap() on Err"
      else
        .ok { name := self.qname
              flags := flagsFromBitsTruncate self.flag
              cigar := cigarVec
              sequence := seq
              qualityScores := qual
              data := data
              referenceSequenceId := refId
              alignmentStart := position
              mappingQuality := self.mapq }

end Record

namespace Iterator

/-- Source `iterator.rs`: `PyBamRecord { record }` (no override support). -/
structure PyBamRecord where
  record : BamRecord
deriving DecidableEq, Repr

/-- Source `iterator.rs` `from_record`. -/
def PyBamRecord.from_record (record : BamRecord) : PyBamRecord :=
  { record := record }

/-- Source `iterator.rs` `qname`. -/
def PyBamRecord.qname (self : PyBamRecord) : String :=
  (self.record.name.map id).getD ""

/-- Source `iterator.rs` `flag`. -/
def PyBamRecord.flag (self : PyBamRecord) : Nat :=
  self.record.flags

/-- Source `iterator.rs` `pos`: identical to `record.rs` `pos` — malformed and
absent both fall to `-1` via `.and_then(|r| r.ok()) ... .unwrap_or(-1)`. -/
def PyBamRecord.pos (self : PyBamRecord) : Int :=
  match self.record.alignmentStart with
  | some (.ok p) => (p : Int)
  | some .err => -1
  | none => -1

/-- Source `iterator.rs` `mapq`. -/
def PyBamRecord.mapq (self : PyBamRecord) : Nat :=
  self.record.mappingQuality.getD 255

/-- Source `iterator.rs` `len`. -/
def PyBamRecord.len (self : PyBamRecord) : Nat :=
  self.record.templateLength.natAbs

/-- Source `iterator.rs` `seq`. -/
def PyBamRecord.seq (self : PyBamRecord) : List Char :=
  self.record.sequence.map Char.ofNat

/-- Source `iterator.rs` `qual`. -/
def PyBamRecord.qual (self : PyBamRecord) : List Nat :=
  self.record.qualityScores

/-- Source `iterator.rs` `cigar` loop body: `Ok(op) ↦ (kind, len)`,
`Err(_) ↦ (Match, 0)` (ordinal 0, length 0). -/
def cigarRow : RResult Op → Nat × Nat
  | .ok op => (op.kind.toNat, op.len)
  | .err => (0, 0)

/-- Source `iterator.rs` `cigar`: the `for op in ... { cigar_ops.push(...) }` loop —
one `(kind, len)` row per raw op, substituting `(Match, 0)` on failure. -/
def PyBamRecord.cigar (self : PyBamRecord) : List (Nat × Nat) :=
  go self.record.cigarOps
where
  /-- The push loop over the remaining raw ops. -/
  go : List (RResult Op) → List (Nat × Nat)
    | [] => []
    | op :: rest => cigarRow op :: go rest

end Iterator

/-- One `read_record` outcome at the source boundary: a decoded record
(`Ok(n)`, `n > 0`) or an I/O error; end of stream (`Ok(0)`) is the list
running out. -/
inductive ReadItem where
  | record (r : BamRecord)
  | err
deriving DecidableEq, Repr

/-- Source `iterator.rs` `BamReader`: the locked source (modelled by the list of
outcomes it will yield, in order) and the fixed chunk size. -/
structure BamReader where
  source : List ReadItem
  chunkSize : Nat
deriving DecidableEq, Repr

/-- Source `BamReader::new(path, chunk_size)`: `chunk_size.unwrap_or(1)`, no
validation (0 is accepted); the opened source stands for the path. -/
def BamReader.new (source : List ReadItem) (chunkSize : Option Nat) :
    BamReader :=
  { source := source, chunkSize := chunkSize.getD 1 }

/-- The `for _ in 0..chunk_size` read loop of `__next__`: stops at the chunk
bound, breaks at end of stream (`Ok(0)`), and on a read error returns
`vec![]` — the partial batch is discarded while the consumed prefix of the
source (error included) stays consumed.  Returns the collected records, the
remaining source, and whether an error occurred. -/
def readLoop : Nat → List ReadItem → List BamRecord × List ReadItem × Bool
  | 0, src => ([], src, false)
  | _ + 1, [] => ([], [], false)
  | _ + 1, .err :: rest => ([], rest, true)
  | n + 1, .record r :: rest =>
    match readLoop n rest with
    | (_, rem, true) => ([], rem, true)
    | (v, rem, false) => (r :: v, rem, false)

/-- Source `BamReader::__next__`: run the locked read loop, then either signal end
of iteration (`Ok(None)`) when no records were collected, or wrap each raw
record in an `iterator.rs` `PyBamRecord`, preserving order. -/
def BamReader.next (self : BamReader) :
    Option (List Iterator.PyBamRecord) × BamReader :=
  match readLoop self.chunkSize self.source with
  | (recs, rem, _) =>
    if recs.isEmpty then
      (none, { source := rem, chunkSize := self.chunkSize })
    else
      (some (recs.map Iterator.PyBamRecord.from_record),
       { source := rem, chunkSize := self.chunkSize })

/-- Successive results of `k` calls to `__next__`. -/
def runReader : BamReader → Nat → List (Option (List Iterator.PyBamRecord))
  | _, 0 => []
  | rd, k + 1 =>
    match rd.next with
    | (b, rd2) => b :: runReader rd2 k

/-- Batch sizes of `k` successive `__next__` calls (`none` = end sentinel). -/
def runReaderSizes (rd : BamReader) (k : Nat) : List (Option Nat) :=
  (runReader rd k).map (Option.map List.length)

/-- All records yielded by `k` successive `__next__` calls, in order. -/
def runReaderRecs (rd : BamReader) (k : Nat) : List BamRecord :=
  ((runReader rd k).map
    (fun b => (b.getD []).map Iterator.PyBamRecord.record)).flatten

/-! Concrete sample inputs used by counterexamples and witnesses. -/

/-- A well-formed base record: valid position, reference id, mapping
quality, one decodable CIGAR op and one decodable tag field. -/
def recBase : BamRecord :=
  { name := some "r1"
    flags := 0
    referenceSequenceId := some (.ok 2)
    alignmentStart := some (.ok 100)
    mappingQuality := some 60
    templateLength := 150
    sequence := [65, 67]
    qualityScores := [30, 31]
    cigarOps := [.ok ⟨.Match, 2⟩]
    rawData := [.ok ((78, 77), .int32 5)] }

/-- Base record with a present-but-malformed alignment start. -/
def recPosErr : BamRecord := { recBase with alignmentStart := some .err }

/-- Base record with an absent alignment start. -/
def recPosNone : BamRecord := { recBase with alignmentStart := none }

/-- Base record with an absent mapping quality (raw byte 255). -/
def recMapqNone : BamRecord := { recBase with mappingQuality := none }

/-- Base record with a present-but-malformed reference sequence id. -/
def recRefErr : BamRecord := { recBase with referenceSequenceId := some .err }

/-- Base record with a single undecodable CIGAR op. -/
def recCigErr : BamRecord := { recBase with cigarOps := [.err] }

/-- Base record with an undefined (reserved) flag bit `0x1000` set. -/
def recHighFlags : BamRecord := { recBase with flags := 4096 }

/-- Base record whose raw tag bytes fail to decode. -/
def recDataErr : BamRecord := { recBase with rawData := [.err] }

/-- Override supplying only a reference sequence id. -/
def ovrRefId5 : RecordOverride :=
  { tags := [], cigar := none, referenceSequenceId := some 5 }

/-- Override supplying only the tag `"XX"` (bytes 88, 88). -/
def ovrTagXX : RecordOverride :=
  { tags := [((88, 88), .int32 7)], cigar := none, referenceSequenceId := none }

/-- Seven distinct records (distinct template lengths) for the batch test. -/
def sampleRecs7 : List BamRecord :=
  [{ recBase with templateLength := 1 }, { recBase with templateLength := 2 },
   { recBase with templateLength := 3 }, { recBase with templateLength := 4 },
   { recBase with templateLength := 5 }, { recBase with templateLength := 6 },
   { recBase with templateLength := 7 }]

/-! Claim C1: the position accessor. -/

/-- C1 counterexample: a record whose alignment-start field is present but
malformed; both `pos` accessors return the absent-case default `-1` instead
of failing with a `DecodeError`, refuting the claim as stated. -/
theorem C1_pos_malformed_counterexample :
    recPosErr.alignmentStart = some .err ∧
    Record.PyBamRecord.pos ⟨recPosErr, none⟩ = -1 ∧
    Iterator.PyBamRecord.pos ⟨recPosErr⟩ = -1 :=
  ⟨rfl, rfl, rfl⟩

/-- C1 (amended): the position accessor never fails; it returns `-1` both
when the alignment-start field is absent and when it is present but
malformed, and the 1-based start when present and valid. -/
theorem C1_pos_amended (r : BamRecord) (o : Option RecordOverride) :
    ((r.alignmentStart = none ∨ r.alignmentStart = some .err) →
      Record.PyBamRecord.pos ⟨r, o⟩ = -1 ∧ Iterator.PyBamRecord.pos ⟨r⟩ = -1) ∧
    (∀ p : Nat, r.alignmentStart = some (.ok p) →
      Record.PyBamRecord.pos ⟨r, o⟩ = (p : Int) ∧
      Iterator.PyBamRecord.pos ⟨r⟩ = (p : Int)) := by
  constructor
  · rintro (h | h) <;>
      simp [Record.PyBamRecord.pos, Iterator.PyBamRecord.pos, h]
  · intro p h
    simp [Record.PyBamRecord.pos, Iterator.PyBamRecord.pos, h]

/-- C1 witness: the amended theorem applied to the absent-position record. -/
theorem C1_pos_amended_witness :
    Record.PyBamRecord.pos ⟨recPosNone, none⟩ = -1 ∧
    Iterator.PyBamRecord.pos ⟨recPosNone⟩ = -1 :=
  (C1_pos_amended recPosNone none).1 (Or.inl rfl)

/-! Claim C3: mapping-quality validation in the rebuild. -/

/-- C3: a record with absent mapping quality (accessor value 255, the
format's unavailable sentinel).  `to_record_buf` panics on
`MappingQuality::try_from(self.mapq()).unwrap()` instead of returning a
`BuildError`. -/
theorem C3_mapq_unwrap_panic :
    Record.PyBamRecord.mapq ⟨recMapqNone, none⟩ = 255 ∧
    Record.PyBamRecord.to_record_buf ⟨recMapqNone, none⟩ =
      .panic "MappingQuality::try_from(mapq).unwrap() on Err" :=
  ⟨rfl, rfl⟩

/-! Claim C4: position resolution in the rebuild. -/

/-- C4: for an absent alignment start the rebuild's `None` arm evaluates
`Position::try_from(0).unwrap()`, which always panics (`Position` is
nonzero), so the absent case does not succeed with an unplaced sentinel;
the present-but-malformed case does fail as claimed. -/
theorem C4_absent_position_panic :
    Record.PyBamRecord.to_record_buf ⟨recPosNone, none⟩ =
      .panic "Position::try_from(0).unwrap() on Err" ∧
    Record.PyBamRecord.to_record_buf ⟨recPosErr, none⟩ =
      .err "Invalid alignment start position" :=
  ⟨rfl, rfl⟩

/-! Claim C5: the CIGAR accessors. -/

/-- C5 counterexample: on one undecodable op, the `record.rs` cigar
accessor returns zero pairs for one input op — it drops failing ops rather
than substituting `(Match, 0)`, refuting the claim for that accessor. -/
theorem C5_record_cigar_drops_counterexample :
    recCigErr.cigarOps.length = 1 ∧
    Record.PyBamRecord.cigar ⟨recCigErr, none⟩ = [] :=
  ⟨rfl, rfl⟩

/-- The cigar push loop of `iterator.rs` is the pointwise image of the raw
ops under the per-op conversion. -/
theorem Iterator.cigar_go_eq_map (l : List (RResult Op)) :
    Iterator.PyBamRecord.cigar.go l = l.map Iterator.cigarRow := by
  induction l with
  | nil => rfl
  | cons x rest ih => simp [Iterator.PyBamRecord.cigar.go, ih]

/-- C5 (amended): the `iterator.rs` cigar accessor never raises and yields
exactly one `(kind, length)` pair per raw op, substituting `(Match, 0)`
(ordinal 0, length 0) for each op that fails to parse; the `record.rs`
cigar accessor instead drops failing ops, so its output count is at most
the input count (and can be smaller). -/
theorem C5_cigar_amended (r : BamRecord) (o : Option RecordOverride) :
    Iterator.PyBamRecord.cigar ⟨r⟩ = r.cigarOps.map Iterator.cigarRow ∧
    (Iterator.PyBamRecord.cigar ⟨r⟩).length = r.cigarOps.length ∧
    Iterator.cigarRow .err = (0, 0) ∧
    (∀ op : Op, Iterator.cigarRow (.ok op) = (op.kind.toNat, op.len)) ∧
    (Record.PyBamRecord.cigar ⟨r, o⟩).length ≤ r.cigarOps.length := by
  refine ⟨Iterator.cigar_go_eq_map _, ?_, rfl, fun _ => rfl, ?_⟩
  · simp [Iterator.PyBamRecord.cigar, Iterator.cigar_go_eq_map]
  · calc (Record.PyBamRecord.cigar ⟨r, o⟩).length
        = (r.cigarOps.filterMap RResult.toOption).length := List.length_map _ _
      _ ≤ r.cigarOps.length := List.length_filterMap_le _ _

/-! Claim C9: chunk size zero. -/

/-- C9: the constructor accepts an explicit batch size of 0 without
validation, and every subsequent `__next__` call returns the end-of-stream
sentinel immediately, reading nothing from the source (the reader state is
unchanged), however many records the source holds. -/
theorem C9_zero_chunk_size (src : List ReadItem) (k : Nat) :
    (BamReader.new src (some 0)).chunkSize = 0 ∧
    (BamReader.new src (some 0)).next = (none, BamReader.new src (some 0)) ∧
    runReader (BamReader.new src (some 0)) k = List.replicate k none := by
  refine ⟨rfl, rfl, ?_⟩
  induction k with
  | zero => rfl
  | succ k ih =>
    have hstep : runReader (BamReader.new src (some 0)) (k + 1) =
        none :: runReader (BamReader.new src (some 0)) k := rfl
    rw [hstep, ih, List.replicate_succ]

/-! Claim C7: chunked batch reads. -/

/-- On an error-free source the read loop collects exactly the first
`n` records and leaves the rest. -/
theorem readLoop_map_record (n : Nat) (recs : List BamRecord) :
    readLoop n (recs.map ReadItem.record) =
      (recs.take n, (recs.drop n).map ReadItem.record, false) := by
  induction n generalizing recs with
  | zero => rfl
  | succ n ih =>
    cases recs with
    | nil => rfl
    | cons r rs => simp [readLoop, ih rs]

/-- One `__next__` call on an error-free source: the batch is the first
`chunkSize` records (end sentinel when there are none), and the remaining
source is the rest, order untouched. -/
theorem next_map_record (recs : List BamRecord) (c : Nat) :
    BamReader.next ⟨recs.map ReadItem.record, c⟩ =
      ((if (recs.take c).isEmpty then none
        else some ((recs.take c).map Iterator.PyBamRecord.from_record)),
       ⟨(recs.drop c).map ReadItem.record, c⟩) := by
  simp only [BamReader.next, readLoop_map_record]
  split <;> rfl

/-- C7: with batch size 3 over any error-free source of 7 records,
successive `__next__` calls yield batches of sizes 3, 3, 1 and then the
end-of-stream sentinel, and the records come back in source order; over
an empty source the first call is already the sentinel; in general one
call returns the first `chunkSize` records and leaves the rest. -/
theorem C7_chunked_batches :
    (∀ recs : List BamRecord, recs.length = 7 →
      runReaderSizes ⟨recs.map ReadItem.record, 3⟩ 4 =
        [some 3, some 3, some 1, none] ∧
      runReaderRecs ⟨recs.map ReadItem.record, 3⟩ 4 = recs) ∧
    runReaderSizes ⟨([] : List ReadItem), 3⟩ 1 = [none] ∧
    (∀ (recs : List BamRecord) (c : Nat),
      BamReader.next ⟨recs.map ReadItem.record, c⟩ =
        ((if (recs.take c).isEmpty then none
          else some ((recs.take c).map Iterator.PyBamRecord.from_record)),
         ⟨(recs.drop c).map ReadItem.record, c⟩)) := by
  refine ⟨?_, rfl, fun recs c => next_map_record recs c⟩
  intro recs h
  obtain ⟨r1, r2, r3, r4, r5, r6, r7, rfl⟩ :
      ∃ a b c d e f g, recs = [a, b, c, d, e, f, g] := by
    rcases recs with _ | ⟨a, _ | ⟨b, _ | ⟨c, _ | ⟨d, _ | ⟨e, _ |
      ⟨f, _ | ⟨g, _ | ⟨x, rest⟩⟩⟩⟩⟩⟩⟩⟩ <;>
      simp only [List.length_cons, List.length_nil] at h <;>
      first
        | omega
        | exact ⟨a, b, c, d, e, f, g, rfl⟩
  exact ⟨rfl, rfl⟩

/-- C7 witness: the theorem applied to a concrete 7-record source. -/
theorem C7_chunked_batches_witness :
    runReaderSizes ⟨sampleRecs7.map ReadItem.record, 3⟩ 4 =
      [some 3, some 3, some 1, none] ∧
    runReaderRecs ⟨sampleRecs7.map ReadItem.record, 3⟩ 4 = sampleRecs7 :=
  C7_chunked_batches.1 sampleRecs7 rfl

/-! The successful path of `to_record_buf`, shared by several claims. -/

/-- The `Data::try_from(...).unwrap_or_default()` value: the view's decoded
tag map, or empty when the raw tag bytes fail to decode. -/
def viewData (rec : BamRecord) : List (Tag × BamValue) :=
  ((dataTryFrom rec.rawData).toOption).getD []

/-- Base CIGAR of the rebuild: the raw ops filtered through `Result::ok`. -/
def baseCigar (rec : BamRecord) : List Op :=
  rec.cigarOps.filterMap RResult.toOption

/-- Reference id before the override step: `Ok(rid) ↦ rid`, absent `↦ 0`
(the malformed case returns early and never reaches this value). -/
def baseRefId (rec : BamRecord) : Nat :=
  match rec.referenceSequenceId with
  | some (.ok rid) => rid
  | _ => 0

/-- Tag map after the override step. -/
def resolveData (rec : BamRecord) (o : Option RecordOverride) :
    List (Tag × BamValue) :=
  match o with
  | some ov => dataInsertAll (viewData rec) ov.tags
  | none => viewData rec

/-- CIGAR after the override step. -/
def resolveCigar (rec : BamRecord) (o : Option RecordOverride) : List Op :=
  match o with
  | some ov =>
    match ov.cigar with
    | some c => c.filterMap RResult.toOption
    | none => baseCigar rec
  | none => baseCigar rec

/-- Reference id after the override step. -/
def resolveRefId (rec : BamRecord) (o : Option RecordOverride) : Nat :=
  match o with
  | some ov =>
    match ov.referenceSequenceId with
    | some rid => rid
    | none => baseRefId rec
  | none => baseRefId rec

/-- When the alignment start is present and valid, the reference id is not
malformed and the mapping quality is available, `to_record_buf` succeeds and
assembles exactly the resolved fields. -/
theorem to_record_buf_ok (rec : BamRecord) (o : Option RecordOverride)
    (p : Nat)
    (hpos : rec.alignmentStart = some (.ok p))
    (href : rec.referenceSequenceId ≠ some .err)
    (hm : rec.mappingQuality.getD 255 ≠ 255) :
    Record.PyBamRecord.to_record_buf ⟨rec, o⟩ =
      .ok { name := Record.PyBamRecord.qname ⟨rec, o⟩
            flags := flagsFromBitsTruncate rec.flags
            cigar := resolveCigar rec o
            sequence := rec.sequence.map Char.ofNat
            qualityScores := rec.qualityScores
            data := resolveData rec o
            referenceSequenceId := resolveRefId rec o
            alignmentStart := p
            mappingQuality := rec.mappingQuality.getD 255 } := by
  have hm' : Record.PyBamRecord.mapq ⟨rec, o⟩ ≠ 255 := hm
  rcases hrid : rec.referenceSequenceId with _ | rid
  · rcases o with _ | ov <;>
      simp [Record.PyBamRecord.to_record_buf, hpos, hrid, hm, hm',
        Record.PyBamRecord.mapq, Record.PyBamRecord.seq, Record.PyBamRecord.flag,
        flagsFromBitsTruncate, resolveData, resolveCigar, resolveRefId,
        baseRefId, baseCigar, viewData]
  · rcases rid with rid | _
    · rcases o with _ | ov <;>
        simp [Record.PyBamRecord.to_record_buf, hpos, hrid, hm, hm',
          Record.PyBamRecord.mapq, Record.PyBamRecord.seq, Record.PyBamRecord.flag,
          flagsFromBitsTruncate, resolveData, resolveCigar, resolveRefId,
          baseRefId, baseCigar, viewData]
    · exact absurd hrid href

/-! Claim C2: reference-sequence-id resolution. -/

/-- C2 counterexample: a view whose original reference id is malformed and
an override that supplies a reference id; the rebuild still fails with the
invalid-reference-id error, refuting the claim that the override would
supersede the malformed original. -/
theorem C2_refid_override_counterexample :
    ovrRefId5.referenceSequenceId = some 5 ∧
    Record.PyBamRecord.to_record_buf ⟨recRefErr, some ovrRefId5⟩ =
      .err "Invalid reference sequence ID" :=
  ⟨rfl, rfl⟩

/-- C2 (amended): the original reference id is resolved before the override
is consulted, so a present-but-malformed original id fails the rebuild with
the invalid-reference-id error regardless of any override (provided position
resolution succeeded first); when the original id is not malformed, an
override-supplied id does resolve to the override's value. -/
theorem C2_refid_resolution_amended :
    (∀ (rec : BamRecord) (o : Option RecordOverride) (p : Nat),
      rec.alignmentStart = some (.ok p) →
      rec.referenceSequenceId = some .err →
      Record.PyBamRecord.to_record_buf ⟨rec, o⟩ =
        .err "Invalid reference sequence ID") ∧
    (∀ (rec : BamRecord) (ov : RecordOverride) (p rid : Nat),
      rec.alignmentStart = some (.ok p) →
      rec.referenceSequenceId ≠ some .err →
      rec.mappingQuality.getD 255 ≠ 255 →
      ov.referenceSequenceId = some rid →
      ∃ rb, Record.PyBamRecord.to_record_buf ⟨rec, some ov⟩ = .ok rb ∧
        rb.referenceSequenceId = rid) := by
  constructor
  · intro rec o p hpos href
    simp [Record.PyBamRecord.to_record_buf, hpos, href]
  · intro rec ov p rid hpos href hm hovr
    refine ⟨_, to_record_buf_ok rec (some ov) p hpos href hm, ?_⟩
    simp [resolveRefId, hovr]

/-- C2 witness: the amended theorem's failure arm at a concrete view with a
malformed original reference id and no override. -/
theorem C2_refid_resolution_witness :
    Record.PyBamRecord.to_record_buf ⟨recRefErr, none⟩ =
      .err "Invalid reference sequence ID" :=
  C2_refid_resolution_amended.1 recRefErr none 100 rfl rfl

/-! Claim C10: undecodable raw tag bytes. -/

/-- C10: when the raw tag bytes cannot be decoded, the rebuild does not fail
on that account (`unwrap_or_default`): with the other fields resolvable it
succeeds, and the rebuilt tag set is the override's entries inserted into an
empty map (just empty without an override). -/
theorem C10_undecodable_tags_default (rec : BamRecord)
    (o : Option RecordOverride) (p : Nat)
    (hdata : dataTryFrom rec.rawData = .err)
    (hpos : rec.alignmentStart = some (.ok p))
    (href : rec.referenceSequenceId ≠ some .err)
    (hm : rec.mappingQuality.getD 255 ≠ 255) :
    ∃ rb, Record.PyBamRecord.to_record_buf ⟨rec, o⟩ = .ok rb ∧
      rb.data = dataInsertAll []
        (match o with | some ov => ov.tags | none => []) := by
  refine ⟨_, to_record_buf_ok rec o p hpos href hm, ?_⟩
  rcases o with _ | ov <;>
    simp [resolveData, viewData, hdata, RResult.toOption, dataInsertAll]

/-- C10 witness: the theorem at a concrete record whose raw tag bytes fail
to decode, with an override adding tag `"XX"`. -/
theorem C10_undecodable_tags_witness :
    ∃ rb, Record.PyBamRecord.to_record_buf ⟨recDataErr, some ovrTagXX⟩ =
        .ok rb ∧
      rb.data = dataInsertAll []
        (match (some ovrTagXX : Option RecordOverride) with
         | some ov => ov.tags | none => []) :=
  C10_undecodable_tags_default recDataErr (some ovrTagXX) 100 rfl rfl
    (by decide) (by decide)

/-! Insertion-ordered map lemmas for `dataInsert`/`dataInsertAll`. -/

/-- Keys of a cons. -/
theorem keysOf_cons (p : Tag × BamValue) (d : List (Tag × BamValue)) :
    keysOf (p :: d) = p.1 :: keysOf d := rfl

/-- Keys of an append. -/
theorem keysOf_append (d₁ d₂ : List (Tag × BamValue)) :
    keysOf (d₁ ++ d₂) = keysOf d₁ ++ keysOf d₂ := by
  simp [keysOf]

/-- The membership probe of `dataInsert` agrees with key membership. -/
theorem any_key_eq_true_iff (d : List (Tag × BamValue)) (t : Tag) :
    d.any (fun p => decide (p.1 = t)) = true ↔ t ∈ keysOf d := by
  simp [List.any_eq_true, keysOf, List.mem_map]

/-- Inserting a fresh tag appends it. -/
theorem dataInsert_of_not_mem (d : List (Tag × BamValue)) (t : Tag)
    (v : BamValue) (h : t ∉ keysOf d) :
    dataInsert d t v = d ++ [(t, v)] := by
  have hany : d.any (fun p => decide (p.1 = t)) = false := by
    rw [List.any_eq_false]
    intro p hp hpt
    exact h ((any_key_eq_true_iff d t).mp (List.any_eq_true.mpr ⟨p, hp, hpt⟩))
  simp [dataInsert, hany]

/-- Inserting an existing tag replaces it in place. -/
theorem dataInsert_of_mem (d : List (Tag × BamValue)) (t : Tag) (v : BamValue)
    (h : t ∈ keysOf d) :
    dataInsert d t v = d.map (fun p => if p.1 = t then (t, v) else p) := by
  simp [dataInsert, (any_key_eq_true_iff d t).mpr h]

/-- The in-place replacement leaves the key sequence unchanged. -/
theorem keysOf_map_replace (d : List (Tag × BamValue)) (t : Tag)
    (v : BamValue) :
    keysOf (d.map (fun p => if p.1 = t then (t, v) else p)) = keysOf d := by
  induction d with
  | nil => rfl
  | cons p rest ih =>
    simp only [List.map_cons, keysOf_cons, ih]
    congr 1
    by_cases hp : p.1 = t <;> simp [hp]

/-- Keys after inserting an existing tag. -/
theorem keysOf_dataInsert_of_mem (d : List (Tag × BamValue)) (t : Tag)
    (v : BamValue) (h : t ∈ keysOf d) :
    keysOf (dataInsert d t v) = keysOf d := by
  rw [dataInsert_of_mem d t v h, keysOf_map_replace]

/-- Key membership after an insert. -/
theorem mem_keysOf_dataInsert (d : List (Tag × BamValue)) (t : Tag)
    (v : BamValue) (u : Tag) :
    u ∈ keysOf (dataInsert d t v) ↔ u ∈ keysOf d ∨ u = t := by
  by_cases h : t ∈ keysOf d
  · rw [keysOf_dataInsert_of_mem d t v h]
    constructor
    · exact Or.inl
    · rintro (hu | rfl)
      · exact hu
      · exact h
  · rw [dataInsert_of_not_mem d t v h, keysOf_append]
    simp [keysOf]

/-- Insertion preserves key uniqueness. -/
theorem nodup_keysOf_dataInsert (d : List (Tag × BamValue)) (t : Tag)
    (v : BamValue) (h : (keysOf d).Nodup) :
    (keysOf (dataInsert d t v)).Nodup := by
  by_cases hm : t ∈ keysOf d
  · rw [keysOf_dataInsert_of_mem d t v hm]
    exact h
  · rw [dataInsert_of_not_mem d t v hm, keysOf_append]
    simp only [keysOf, List.map_cons, List.map_nil]
    refine List.Nodup.append h (List.nodup_singleton t) ?_
    intro a ha hb
    rw [List.mem_singleton] at hb
    exact hm (hb ▸ ha)

/-- No entry is found under an absent key. -/
theorem find?_eq_none_of_not_mem (d : List (Tag × BamValue)) (t : Tag)
    (h : t ∉ keysOf d) :
    d.find? (fun p => decide (p.1 = t)) = none := by
  rw [List.find?_eq_none]
  intro p hp hpt
  exact h (List.mem_map.mpr ⟨p, hp, of_decide_eq_true hpt⟩)

/-- After an in-place replacement the replaced entry is found. -/
theorem find?_map_replace_self (d : List (Tag × BamValue)) (t : Tag)
    (v : BamValue) (h : t ∈ keysOf d) :
    (d.map (fun p => if p.1 = t then (t, v) else p)).find?
        (fun p => decide (p.1 = t)) = some (t, v) := by
  induction d with
  | nil => simp [keysOf] at h
  | cons p rest ih =>
    by_cases hp : p.1 = t
    · simp [hp]
    · have h2 : t ∈ keysOf rest := by
        rcases List.mem_cons.mp (by simpa [keysOf_cons] using h) with h1 | h1
        · exact absurd h1.symm hp
        · exact h1
      simp [hp, ih h2]

/-- An in-place replacement of tag `t` does not disturb lookups of other
tags. -/
theorem find?_map_replace_other (d : List (Tag × BamValue)) (t : Tag)
    (v : BamValue) (u : Tag) (hne : u ≠ t) :
    (d.map (fun p => if p.1 = t then (t, v) else p)).find?
        (fun p => decide (p.1 = u)) =
      d.find? (fun p => decide (p.1 = u)) := by
  induction d with
  | nil => rfl
  | cons p rest ih =>
    by_cases hp : p.1 = t
    · have h1 : ¬((fun q : Tag × BamValue => decide (q.1 = u)) (t, v) = true) := by
        simp only [decide_eq_true_eq]
        exact fun hq => hne hq.symm
      have h2 : ¬((fun q : Tag × BamValue => decide (q.1 = u)) p = true) := by
        simp only [decide_eq_true_eq, hp]
        exact fun hq => hne hq.symm
      rw [List.map_cons, if_pos hp,
        @List.find?_cons_of_neg (Tag × BamValue) (fun q => decide (q.1 = u))
          (t, v) _ h1,
        @List.find?_cons_of_neg (Tag × BamValue) (fun q => decide (q.1 = u))
          p _ h2, ih]
    · by_cases hq : p.1 = u
      · have h3 : (fun q : Tag × BamValue => decide (q.1 = u)) p = true := by
          simpa using hq
        rw [List.map_cons, if_neg hp,
          @List.find?_cons_of_pos (Tag × BamValue) (fun q => decide (q.1 = u))
            p _ h3,
          @List.find?_cons_of_pos (Tag × BamValue) (fun q => decide (q.1 = u))
            p _ h3]
      · have h3 : ¬((fun q : Tag × BamValue => decide (q.1 = u)) p = true) := by
          simpa using hq
        rw [List.map_cons, if_neg hp,
          @List.find?_cons_of_neg (Tag × BamValue) (fun q => decide (q.1 = u))
            p _ h3,
          @List.find?_cons_of_neg (Tag × BamValue) (fun q => decide (q.1 = u))
            p _ h3, ih]

/-- Lookup of the inserted tag yields the inserted value. -/
theorem lookupTag_dataInsert_self (d : List (Tag × BamValue)) (t : Tag)
    (v : BamValue) :
    lookupTag (dataInsert d t v) t = some v := by
  by_cases h : t ∈ keysOf d
  · rw [lookupTag, dataInsert_of_mem d t v h, find?_map_replace_self d t v h]
    rfl
  · rw [lookupTag, dataInsert_of_not_mem d t v h, List.find?_append,
      find?_eq_none_of_not_mem d t h]
    simp

/-- Lookup of any other tag is unchanged by an insert. -/
theorem lookupTag_dataInsert_other (d : List (Tag × BamValue)) (t : Tag)
    (v : BamValue) (u : Tag) (hne : u ≠ t) :
    lookupTag (dataInsert d t v) u = lookupTag d u := by
  by_cases h : t ∈ keysOf d
  · rw [lookupTag, dataInsert_of_mem d t v h,
      find?_map_replace_other d t v u hne]
    rfl
  · rw [lookupTag, dataInsert_of_not_mem d t v h, List.find?_append]
    have hnone : List.find? (fun p => decide (p.1 = u)) [(t, v)] = none := by
      have h2 : ¬(t = u) := fun hq => hne hq.symm
      simp [h2]
    rw [hnone, Option.or_none]
    rfl

/-- Count of a key over a cons. -/
theorem countKey_cons (p : Tag × BamValue) (d : List (Tag × BamValue))
    (t : Tag) :
    countKey (p :: d) t = (if p.1 = t then 1 else 0) + countKey d t := by
  by_cases hp : p.1 = t
  · simp [countKey, List.filter_cons, hp]
    omega
  · simp [countKey, List.filter_cons, hp]

/-- An absent key has count zero. -/
theorem countKey_eq_zero_of_not_mem (d : List (Tag × BamValue)) (t : Tag)
    (h : t ∉ keysOf d) :
    countKey d t = 0 := by
  induction d with
  | nil => rfl
  | cons p rest ih =>
    have hp : ¬(p.1 = t) := fun hq => h (by simp [keysOf_cons, hq])
    have h2 : t ∉ keysOf rest := fun hq => h (by simp [keysOf_cons, hq])
    rw [countKey_cons, ih h2, if_neg hp]

/-- Under unique keys, a present key has exactly one entry. -/
theorem countKey_eq_one (d : List (Tag × BamValue)) (t : Tag)
    (hnd : (keysOf d).Nodup) (hmem : t ∈ keysOf d) :
    countKey d t = 1 := by
  induction d with
  | nil => simp [keysOf] at hmem
  | cons p rest ih =>
    rcases List.nodup_cons.mp (by simpa [keysOf_cons] using hnd) with ⟨hnin, hnd2⟩
    rw [countKey_cons]
    by_cases hp : p.1 = t
    · rw [if_pos hp, countKey_eq_zero_of_not_mem rest t (hp ▸ hnin)]
    · have hmem2 : t ∈ keysOf rest := by
        rcases List.mem_cons.mp (by simpa [keysOf_cons] using hmem) with h1 | h1
        · exact absurd h1.symm hp
        · exact h1
      rw [if_neg hp, ih hnd2 hmem2]

/-- Unfolding one override entry. -/
theorem dataInsertAll_cons (d : List (Tag × BamValue)) (tv : Tag × BamValue)
    (os : List (Tag × BamValue)) :
    dataInsertAll d (tv :: os) = dataInsertAll (dataInsert d tv.1 tv.2) os :=
  rfl

/-- Key membership after merging a whole override tag list. -/
theorem mem_keysOf_dataInsertAll (os : List (Tag × BamValue))
    (d : List (Tag × BamValue)) (u : Tag) :
    u ∈ keysOf (dataInsertAll d os) ↔ u ∈ keysOf d ∨ u ∈ keysOf os := by
  induction os generalizing d with
  | nil => simp [dataInsertAll, keysOf]
  | cons tv os ih =>
    rw [dataInsertAll_cons, ih, mem_keysOf_dataInsert, keysOf_cons]
    simp
    tauto

/-- Merging preserves key uniqueness. -/
theorem nodup_keysOf_dataInsertAll (os : List (Tag × BamValue))
    (d : List (Tag × BamValue)) (h : (keysOf d).Nodup) :
    (keysOf (dataInsertAll d os)).Nodup := by
  induction os generalizing d with
  | nil => exact h
  | cons tv os ih => exact ih _ (nodup_keysOf_dataInsert _ _ _ h)

/-- A tag outside the override keeps its original lookup. -/
theorem lookupTag_dataInsertAll_not_mem (os : List (Tag × BamValue))
    (d : List (Tag × BamValue)) (u : Tag) (h : u ∉ keysOf os) :
    lookupTag (dataInsertAll d os) u = lookupTag d u := by
  induction os generalizing d with
  | nil => rfl
  | cons tv os ih =>
    have h1 : u ≠ tv.1 := fun hq => h (by simp [keysOf_cons, hq])
    have h2 : u ∉ keysOf os := fun hq => h (by simp [keysOf_cons, hq])
    rw [dataInsertAll_cons, ih _ h2, lookupTag_dataInsert_other _ _ _ _ h1]

/-- A tag supplied by the override (with unique override keys) looks up to
the override's value after the merge. -/
theorem lookupTag_dataInsertAll_mem (os : List (Tag × BamValue))
    (d : List (Tag × BamValue)) (t : Tag) (v : BamValue)
    (hnd : (keysOf os).Nodup) (hmem : (t, v) ∈ os) :
    lookupTag (dataInsertAll d os) t = some v := by
  induction os generalizing d with
  | nil => simp at hmem
  | cons tv os ih =>
    rcases List.nodup_cons.mp (by simpa [keysOf_cons] using hnd) with ⟨hnin, hnd2⟩
    rcases List.mem_cons.mp hmem with h1 | h1
    · obtain rfl : tv = (t, v) := h1.symm
      rw [dataInsertAll_cons, lookupTag_dataInsertAll_not_mem os _ t hnin]
      exact lookupTag_dataInsert_self d t v
    · exact ih _ hnd2 h1

/-- Merging a key-disjoint list with unique keys is concatenation. -/
theorem dataInsertAll_append_of_disjoint (fields : List (Tag × BamValue)) :
    ∀ d : List (Tag × BamValue), (keysOf fields).Nodup →
      (∀ k, k ∈ keysOf fields → k ∉ keysOf d) →
      dataInsertAll d fields = d ++ fields := by
  induction fields with
  | nil =>
    intro d _ _
    simp [dataInsertAll]
  | cons tv fields ih =>
    intro d hnd hdisj
    rcases List.nodup_cons.mp (by simpa [keysOf_cons] using hnd) with ⟨hnin, hnd2⟩
    have hd1 : tv.1 ∉ keysOf d := hdisj tv.1 (by simp [keysOf_cons])
    rw [dataInsertAll_cons, dataInsert_of_not_mem d tv.1 tv.2 hd1]
    rw [ih (d ++ [(tv.1, tv.2)]) hnd2 ?_]
    · simp
    · intro k hk
      rw [keysOf_append]
      intro hmem
      rcases List.mem_append.mp hmem with h1 | h1
      · exact hdisj k (by simp [keysOf_cons, hk]) h1
      · have hk1 : k = tv.1 := by simpa [keysOf] using h1
        exact hnin (hk1 ▸ hk)

/-- Collecting fields with unique keys reproduces the field list. -/
theorem dataInsertAll_nil_eq (fields : List (Tag × BamValue))
    (hnd : (keysOf fields).Nodup) :
    dataInsertAll [] fields = fields := by
  have h := dataInsertAll_append_of_disjoint fields [] hnd
    (by intro k _; simp [keysOf])
  simpa using h

/-- The defaulted tag map of a view whose raw fields all decode. -/
theorem viewData_of_sequence_ok (rec : BamRecord)
    (fields : List (Tag × BamValue))
    (h : RResult.sequence rec.rawData = .ok fields) :
    viewData rec = dataInsertAll [] fields := by
  simp [viewData, dataTryFrom, h, RResult.toOption]

/-! Claim C6: tag-override merge semantics. -/

/-- C6: for any view whose raw tag fields all decode (with unique tag names)
and any override tag map, the rebuilt record's tag set is the view's tag set
merged with the override by tag name: the key set is the union, an override
tag looks up to the overridden value and occupies exactly one entry, and
tags outside the override keep their original values. -/
theorem C6_tag_merge (rec : BamRecord) (ov : RecordOverride)
    (fields : List (Tag × BamValue)) (p : Nat)
    (hdata : RResult.sequence rec.rawData = .ok fields)
    (hnd : (keysOf fields).Nodup)
    (hovnd : (keysOf ov.tags).Nodup)
    (hpos : rec.alignmentStart = some (.ok p))
    (href : rec.referenceSequenceId ≠ some .err)
    (hm : rec.mappingQuality.getD 255 ≠ 255) :
    ∃ rb, Record.PyBamRecord.to_record_buf ⟨rec, some ov⟩ = .ok rb ∧
      (∀ u, u ∈ keysOf rb.data ↔ (u ∈ keysOf fields ∨ u ∈ keysOf ov.tags)) ∧
      (∀ t v, (t, v) ∈ ov.tags →
        lookupTag rb.data t = some v ∧ countKey rb.data t = 1) ∧
      (∀ u, u ∉ keysOf ov.tags → lookupTag rb.data u = lookupTag fields u) := by
  have hvd : viewData rec = fields := by
    rw [viewData_of_sequence_ok rec fields hdata, dataInsertAll_nil_eq fields hnd]
  refine ⟨_, to_record_buf_ok rec (some ov) p hpos href hm, ?_, ?_, ?_⟩
  · intro u
    show u ∈ keysOf (resolveData rec (some ov)) ↔ _
    simp only [resolveData, hvd]
    exact mem_keysOf_dataInsertAll ov.tags fields u
  · intro t v hmem
    constructor
    · show lookupTag (resolveData rec (some ov)) t = some v
      simp only [resolveData, hvd]
      exact lookupTag_dataInsertAll_mem ov.tags fields t v hovnd hmem
    · show countKey (resolveData rec (some ov)) t = 1
      simp only [resolveData, hvd]
      refine countKey_eq_one _ t (nodup_keysOf_dataInsertAll ov.tags fields hnd) ?_
      rw [mem_keysOf_dataInsertAll]
      exact Or.inr (List.mem_map.mpr ⟨(t, v), hmem, rfl⟩)
  · intro u hu
    show lookupTag (resolveData rec (some ov)) u = lookupTag fields u
    simp only [resolveData, hvd]
    exact lookupTag_dataInsertAll_not_mem ov.tags fields u hu

/-- C6 witness: the merge theorem at a concrete view (one original tag) and
the override adding the fresh tag `"XX"`. -/
theorem C6_tag_merge_witness :
    ∃ rb, Record.PyBamRecord.to_record_buf ⟨recBase, some ovrTagXX⟩ = .ok rb ∧
      (∀ u, u ∈ keysOf rb.data ↔
        (u ∈ keysOf [((78, 77), BamValue.int32 5)] ∨ u ∈ keysOf ovrTagXX.tags)) ∧
      (∀ t v, (t, v) ∈ ovrTagXX.tags →
        lookupTag rb.data t = some v ∧ countKey rb.data t = 1) ∧
      (∀ u, u ∉ keysOf ovrTagXX.tags →
        lookupTag rb.data u = lookupTag [((78, 77), BamValue.int32 5)] u) :=
  C6_tag_merge recBase ovrTagXX [((78, 77), BamValue.int32 5)] 100
    rfl (by decide) (by decide) rfl (by decide) (by decide)

/-! Claim C8: rebuild without an override. -/

/-- C8 counterexample: a well-formed record with the undefined flag bit
`0x1000` set and no override; `Flags::from_bits_truncate` clears the bit, so
the rebuilt flags are `0` while the view reports `4096` — the 16 flag bits
are not preserved verbatim. -/
theorem C8_flags_truncated_counterexample :
    Record.PyBamRecord.flag ⟨recHighFlags, none⟩ = 4096 ∧
    Record.PyBamRecord.to_record_buf ⟨recHighFlags, none⟩ =
      .ok { name := "r1", flags := 0, cigar := [⟨Kind.Match, 2⟩],
            sequence := ['A', 'C'], qualityScores := [30, 31],
            data := [((78, 77), BamValue.int32 5)],
            referenceSequenceId := 2, alignmentStart := 100,
            mappingQuality := 60 } := by
  constructor
  · rfl
  · decide

/-- C8 (amended): rebuilding a well-formed view without an override
reproduces name, sequence, quality scores, CIGAR, tag set and mapping
quality unchanged, while the flags are reproduced only up to truncation to
the 12 defined SAM flag bits (mask `0xFFF`); the 16-bit value is preserved
verbatim exactly when no undefined bit is set. -/
theorem C8_no_override_amended (rec : BamRecord)
    (fields : List (Tag × BamValue)) (p : Nat)
    (hdata : RResult.sequence rec.rawData = .ok fields)
    (hnd : (keysOf fields).Nodup)
    (hpos : rec.alignmentStart = some (.ok p))
    (href : rec.referenceSequenceId ≠ some .err)
    (hm : rec.mappingQuality.getD 255 ≠ 255) :
    ∃ rb, Record.PyBamRecord.to_record_buf ⟨rec, none⟩ = .ok rb ∧
      rb.name = Record.PyBamRecord.qname ⟨rec, none⟩ ∧
      rb.sequence = Record.PyBamRecord.seq ⟨rec, none⟩ ∧
      rb.qualityScores = Record.PyBamRecord.qual ⟨rec, none⟩ ∧
      rb.cigar.map (fun op => (op.kind.toNat, op.len)) =
        Record.PyBamRecord.cigar ⟨rec, none⟩ ∧
      rb.data = fields ∧
      rb.mappingQuality = Record.PyBamRecord.mapq ⟨rec, none⟩ ∧
      rb.flags = flagsFromBitsTruncate (Record.PyBamRecord.flag ⟨rec, none⟩) ∧
      (rec.flags < 4096 → rb.flags = Record.PyBamRecord.flag ⟨rec, none⟩) := by
  have hvd : viewData rec = fields := by
    rw [viewData_of_sequence_ok rec fields hdata, dataInsertAll_nil_eq fields hnd]
  refine ⟨_, to_record_buf_ok rec none p hpos href hm,
    rfl, rfl, rfl, rfl, ?_, rfl, rfl, ?_⟩
  · show resolveData rec none = fields
    simp only [resolveData, hvd]
  · intro hlt
    show flagsFromBitsTruncate rec.flags = rec.flags
    unfold flagsFromBitsTruncate flagsKnownMask
    have h4095 : (4095 : Nat) = 2 ^ 12 - 1 := by norm_num
    rw [h4095, Nat.and_pow_two_sub_one_eq_mod]
    have h2 : rec.flags < 2 ^ 12 := by
      have hp2 : (2 : Nat) ^ 12 = 4096 := by norm_num
      omega
    exact Nat.mod_eq_of_lt h2

/-- C8 witness: the amended theorem at the concrete well-formed base
record (whose flags have no undefined bit). -/
theorem C8_no_override_witness :
    ∃ rb, Record.PyBamRecord.to_record_buf ⟨recBase, none⟩ = .ok rb ∧
      rb.name = Record.PyBamRecord.qname ⟨recBase, none⟩ ∧
      rb.sequence = Record.PyBamRecord.seq ⟨recBase, none⟩ ∧
      rb.qualityScores = Record.PyBamRecord.qual ⟨recBase, none⟩ ∧
      rb.cigar.map (fun op => (op.kind.toNat, op.len)) =
        Record.PyBamRecord.cigar ⟨recBase, none⟩ ∧
      rb.data = [((78, 77), BamValue.int32 5)] ∧
      rb.mappingQuality = Record.PyBamRecord.mapq ⟨recBase, none⟩ ∧
      rb.flags = flagsFromBitsTruncate (Record.PyBamRecord.flag ⟨recBase, none⟩) ∧
      (recBase.flags < 4096 →
        rb.flags = Record.PyBamRecord.flag ⟨recBase, none⟩) :=
  C8_no_override_amended recBase [((78, 77), BamValue.int32 5)] 100
    rfl (by decide) rfl (by decide) (by decide)
